import Mathlib

/-!
# Verification of the `eventsource` crate's parser and reconnecting client

Shallow embedding of `src/event.rs` (the SSE line parser and the `Display`
serializer for events) and `src/reqwest.rs` (the reconnecting client's
`next_request` and `Iterator::next`). Strings are modelled as `List Char`,
durations as natural numbers of milliseconds, and the HTTP transport as an
explicit list of connection outcomes.
-/

namespace EventSource

/-- `Event` from `src/event.rs`: optional id, optional event type, and the
data string (all `data` fields concatenated, each followed by a newline). -/
structure Event where
  id : Option (List Char)
  event_type : Option (List Char)
  data : List Char
deriving DecidableEq, Repr

/-- `ParseResult` from `src/event.rs`. `Next` is the "line consumed, event not
complete" outcome (the spec calls it Continue); `SetRetry` carries the retry
duration in milliseconds. -/
inductive ParseResult where
  | Next : ParseResult
  | Dispatch : ParseResult
  | SetRetry : Nat → ParseResult
deriving DecidableEq, Repr

/-- `Event::new()`: the empty event. -/
def Event.new : Event := { id := none, event_type := none, data := [] }

/-- `Event::is_empty()`. -/
def Event.is_empty (e : Event) : Bool :=
  e.id.isNone && e.event_type.isNone && e.data.isEmpty

/-- `line.trim_right_matches(|c| c == '\r' || c == '\n')`: strip all trailing
CR and LF characters. -/
def stripTrailingNL (l : List Char) : List Char :=
  (l.reverse.dropWhile (fun c => c == '\r' || c == '\n')).reverse

/-- The field/value split of a non-empty stripped line: split at the first
colon (field before, value after with the colon and at most one following
space removed); a line with no colon is the whole field with empty value.
Mirrors the `let (field, value) = ...` block of `parse_event_line`. -/
def splitFieldValue (line : List Char) : List Char × List Char :=
  let p := line.span (fun c => c != ':')
  match p.2 with
  | [] => (line, [])
  | _ :: v =>
    (p.1, match v with
          | ' ' :: v2 => v2
          | _ => v)

/-- Digit run to number, as in Rust's decimal integer parsing. -/
def digitsToNat (l : List Char) : Nat :=
  l.foldl (fun a c => a * 10 + (c.toNat - 48)) 0

/-- `value.parse::<u64>()`: an optional leading `+`, then one or more ASCII
digits, rejecting the empty digit run and values that overflow `u64`. -/
def parseU64 (s : List Char) : Option Nat :=
  let s2 := match s with
            | '+' :: r => r
            | _ => s
  if s2 = [] then none
  else if s2.all (fun c => c.isDigit) then
    let n := digitsToNat s2
    if n < 2 ^ 64 then some n else none
  else none

/-- The `match field { ... }` of `parse_event_line`, applied to a non-empty
stripped line: split into field and value and act on the recognized field
names, the default being to ignore the line. -/
def handleField (line : List Char) (event : Event) : ParseResult × Event :=
  let fv := splitFieldValue line
  let field := fv.1
  let value := fv.2
  if field = "event".toList then
    (ParseResult.Next, { event with event_type := some value })
  else if field = "data".toList then
    (ParseResult.Next, { event with data := event.data ++ value ++ ['\n'] })
  else if field = "id".toList then
    (ParseResult.Next, { event with id := some value })
  else if field = "retry".toList then
    match parseU64 value with
    | some n => (ParseResult.SetRetry n, event)
    | none => (ParseResult.Next, event)
  else
    (ParseResult.Next, event)

/-- `parse_event_line` from `src/event.rs`, with the mutation of the
accumulator made explicit: returns the parse result together with the updated
event. The line is stripped of trailing CR/LF; an empty result dispatches,
anything else goes through the field dispatch of `handleField`. -/
def parse_event_line (line : List Char) (event : Event) : ParseResult × Event :=
  let line := stripTrailingNL line
  if line = [] then
    (ParseResult.Dispatch, event)
  else
    handleField line event

/-- Split at every LF, keeping empty segments (Rust's `split('\n')`). -/
def splitNL : List Char → List (List Char)
  | [] => [[]]
  | c :: rest =>
    if c = '\n' then [] :: splitNL rest
    else
      match splitNL rest with
      | l :: ls => (c :: l) :: ls
      | [] => [[c]]

/-- Remove one trailing CR if present (the `\r` of a `\r\n` terminator). -/
def stripCR (l : List Char) : List Char :=
  if l.getLast? = some '\r' then l.dropLast else l

/-- Rust's `str::lines()`: split at LF, drop a final empty segment produced by
a trailing LF, and strip the CR of a `\r\n` terminator from every
LF-terminated segment (the last, unterminated segment keeps any CR). -/
def rustLines (s : List Char) : List (List Char) :=
  let parts := splitNL s
  let front := parts.dropLast.map stripCR
  match parts.getLast? with
  | some l => if l = [] then front else front ++ [l]
  | none => front

/-- The `Display` implementation for `Event`: an `id: ` line if the id is
present, an `event: ` line if the event type is present, then one `data: `
line per line of the data string, each terminated by LF. -/
def displayEvent (e : Event) : List Char :=
  (match e.id with
   | some id => "id: ".toList ++ id ++ ['\n']
   | none => []) ++
  (match e.event_type with
   | some t => "event: ".toList ++ t ++ ['\n']
   | none => []) ++
  ((rustLines e.data).map (fun l => "data: ".toList ++ l ++ ['\n'])).flatten

/-- Split a serialized stream into wire lines, each keeping its terminating
LF (how a line-oriented reader hands the text to the parser). -/
def splitInclusiveNL : List Char → List (List Char)
  | [] => []
  | c :: rest =>
    if c = '\n' then ['\n'] :: splitInclusiveNL rest
    else
      match splitInclusiveNL rest with
      | l :: ls => (c :: l) :: ls
      | [] => [[c]]

/-- Feed a list of lines through `parse_event_line` against one accumulator,
keeping the accumulator after each call. -/
def feedEventLines (ls : List (List Char)) (e : Event) : Event :=
  ls.foldl (fun acc l => (parse_event_line l acc).2) e

/-! ## The reconnecting client of `src/reqwest.rs`

The HTTP transport is modelled explicitly: each call of `read_line` on an
open body yields a successful chunk, a clean end of stream, or an I/O error,
so an open body is a list of `ReadResult`s (an exhausted list reads as a
clean end of stream, as an exhausted `BufReader` does); each `send()` of a
request yields either a transport error or a `Response`. A pull (`next`)
consumes connection outcomes from a list standing for the environment. -/

/-- One outcome of `reader.read_line(&mut line)` on the open body. -/
inductive ReadResult where
  | line : List Char → ReadResult
  | eof : ReadResult
  | ioError : ReadResult
deriving DecidableEq, Repr

/-- A MIME type as the `mime` crate exposes it to `next_request`: a type and
subtype pair plus parameters, the parameters ignored by the comparison. -/
structure Mime where
  type_ : List Char
  subtype : List Char
  params : List (List Char × List Char)
deriving DecidableEq, Repr

/-- The parts of a `reqwest` response that `next_request` inspects: whether
the status is in the success range, the status code itself, the optional
parsed `Content-Type` header, and the body as a stream of read outcomes. -/
structure Response where
  statusSuccess : Bool
  statusCode : Nat
  contentType : Option Mime
  body : List ReadResult
deriving DecidableEq, Repr

/-- The outcome of `self.client.get(url).headers(headers).send()`. -/
inductive RequestOutcome where
  | sendError : RequestOutcome
  | response : Response → RequestOutcome
deriving DecidableEq, Repr

/-- The error enum of `src/reqwest.rs` (timing and the wrapped payloads of
`Reqwest`/`Io` are not modelled). -/
inductive Error where
  | Reqwest : Error
  | Io : Error
  | Http : Nat → Error
  | InvalidContentType : Mime → Error
  | NoContentType : Error
deriving DecidableEq, Repr

/-- The mutable state of `Client` that the pull operation touches: the open
response body (if any), the sticky last event id, and the retry interval in
milliseconds (`last_try` and the wait are timing and are not modelled). -/
structure Client where
  response : Option (List ReadResult)
  last_event_id : Option (List Char)
  retry : Nat
deriving DecidableEq, Repr

/-- `DEFAULT_RETRY`. -/
def DEFAULT_RETRY : Nat := 5000

/-- `Client::new` / `Client::new_with_client`: no open connection, no last
event id, default retry interval. -/
def Client.new : Client :=
  { response := none, last_event_id := none, retry := DEFAULT_RETRY }

/-- `Client::next_request` applied to the outcome of `send()`: checks the
status code, then the `Content-Type` header (comparing type and subtype only),
and on success stores the body as the open connection. -/
def next_request (c : Client) (req : RequestOutcome) : Client × Except Error Unit :=
  match req with
  | RequestOutcome.sendError => (c, Except.error Error.Reqwest)
  | RequestOutcome.response r =>
    if !r.statusSuccess then
      (c, Except.error (Error.Http r.statusCode))
    else
      match r.contentType with
      | some ct =>
        if (ct.type_, ct.subtype) ≠ ("text".toList, "event-stream".toList) then
          (c, Except.error (Error.InvalidContentType ct))
        else
          ({ c with response := some r.body }, Except.ok ())
      | none => (c, Except.error Error.NoContentType)

/-- How the read loop of `Client::next` ends: with a dispatched event
(`return Some(Ok(event))`), at a clean end of stream (`break None`), or with
a read error (`break Some(Err(..))`). -/
inductive LoopExit where
  | yield : Event → LoopExit
  | eofExit : LoopExit
  | readErr : LoopExit
deriving DecidableEq, Repr

/-- The `loop` of `Client::next`: reads lines from the open body into the
per-pull accumulator, updating `retry` on `SetRetry` and `last_event_id` on
`Dispatch`. Returns the client (with its retry/last-event-id updates), the
unread remainder of the body, and how the loop ended. -/
def runLoop : Client → Event → List ReadResult → Client × List ReadResult × LoopExit
  | c, _, [] => (c, [], LoopExit.eofExit)
  | c, _, ReadResult.eof :: rest => (c, rest, LoopExit.eofExit)
  | c, _, ReadResult.ioError :: rest => (c, rest, LoopExit.readErr)
  | c, acc, ReadResult.line s :: rest =>
    match parse_event_line s acc with
    | (ParseResult.Next, acc2) => runLoop c acc2 rest
    | (ParseResult.Dispatch, acc2) =>
      let c2 := match acc2.id with
                | some id => { c with last_event_id := some id }
                | none => c
      (c2, rest, LoopExit.yield acc2)
    | (ParseResult.SetRetry d, acc2) => runLoop { c with retry := d } acc2 rest

instance : DecidableEq (Except Error Event) := fun a b =>
  match a, b with
  | Except.ok x, Except.ok y =>
    if h : x = y then isTrue (by rw [h]) else isFalse (by simp [h])
  | Except.error x, Except.error y =>
    if h : x = y then isTrue (by rw [h]) else isFalse (by simp [h])
  | Except.ok _, Except.error _ => isFalse (by simp)
  | Except.error _, Except.ok _ => isFalse (by simp)

/-- What one pull returns: `item r` is `Some(r)` of the iterator; `blocked`
marks the model's environment running out of connection outcomes (the real
client would block and keep retrying). -/
inductive PullOutcome where
  | item : Except Error Event → PullOutcome
  | blocked : PullOutcome
deriving DecidableEq, Repr

/-- `Client::next` starting from the Idle state (`self.response == None`):
take the next connection outcome, run `next_request`, surface its error or
read the fresh body; on clean EOF or read error, drop the connection and
try again with the remaining environment (the recursion at the end of
`next`). -/
def nextFromIdle : Client → List RequestOutcome → PullOutcome × Client
  | c, [] => (PullOutcome.blocked, c)
  | c, req :: env =>
    match next_request c req with
    | (c2, Except.error e) => (PullOutcome.item (Except.error e), c2)
    | (c2, Except.ok ()) =>
      match c2.response with
      | some rs =>
        match runLoop c2 Event.new rs with
        | (c3, rest, LoopExit.yield ev) =>
          (PullOutcome.item (Except.ok ev), { c3 with response := some rest })
        | (c3, _, LoopExit.eofExit) => nextFromIdle { c3 with response := none } env
        | (c3, _, LoopExit.readErr) => nextFromIdle { c3 with response := none } env
      | none => (PullOutcome.blocked, c2)

/-- `Client::next` (`Iterator::next` of `src/reqwest.rs`): if a connection is
open, read from it; a dispatch yields the event with the rest of the body
kept open, while clean EOF and read errors close the connection and re-enter
the Idle logic within the same pull. -/
def clientNext (c : Client) (env : List RequestOutcome) : PullOutcome × Client :=
  match c.response with
  | some rs =>
    match runLoop c Event.new rs with
    | (c3, rest, LoopExit.yield ev) =>
      (PullOutcome.item (Except.ok ev), { c3 with response := some rest })
    | (c3, _, LoopExit.eofExit) => nextFromIdle { c3 with response := none } env
    | (c3, _, LoopExit.readErr) => nextFromIdle { c3 with response := none } env
  | none => nextFromIdle c env

/-! ## Helper lemmas about stripping and field splitting -/

lemma stripTrailingNL_nil : stripTrailingNL [] = [] := rfl

lemma stripTrailingNL_append_nl (l : List Char) :
    stripTrailingNL (l ++ ['\n']) = stripTrailingNL l := by
  simp [stripTrailingNL]

lemma stripTrailingNL_append_clean (a s : List Char) (ha : stripTrailingNL a = a)
    (h1 : '\n' ∉ s) (h2 : '\r' ∉ s) : stripTrailingNL (a ++ s) = a ++ s := by
  rcases List.eq_nil_or_concat s with rfl | ⟨t, c, rfl⟩
  · simpa using ha
  · have hcr : c ≠ '\r' := by rintro rfl; exact h2 (by simp [List.concat_eq_append])
    have hcn : c ≠ '\n' := by rintro rfl; exact h1 (by simp [List.concat_eq_append])
    simp [stripTrailingNL, List.concat_eq_append, List.dropWhile_cons, hcr, hcn]

lemma stripTrailingNL_noCRLF (s : List Char) (h1 : '\n' ∉ s) (h2 : '\r' ∉ s) :
    stripTrailingNL s = s := by
  simpa using stripTrailingNL_append_clean [] s rfl h1 h2

lemma mem_of_mem_stripTrailingNL {c : Char} {l : List Char}
    (h : c ∈ stripTrailingNL l) : c ∈ l := by
  unfold stripTrailingNL at h
  rw [List.mem_reverse] at h
  have := (List.dropWhile_sublist _).mem h
  rwa [List.mem_reverse] at this

lemma splitFieldValue_no_colon (x : List Char) (h : ':' ∉ x) :
    splitFieldValue x = (x, []) := by
  have hall : ∀ c ∈ x, (c != ':') = true := by
    intro c hc
    have : c ≠ ':' := fun e => h (e ▸ hc)
    simp [this]
  have htake : x.takeWhile (fun c => c != ':') = x :=
    List.takeWhile_eq_self_iff.mpr (by simpa using hall)
  have hdrop : x.dropWhile (fun c => c != ':') = [] := by
    have happ := List.takeWhile_append_dropWhile (p := fun c => c != ':') (l := x)
    rw [htake] at happ
    exact (List.append_cancel_left (happ.trans (List.append_nil x).symm))
  unfold splitFieldValue
  rw [List.span_eq_take_drop, htake, hdrop]

/-! ## Evaluation lemmas for `parse_event_line` -/

lemma parse_blank (l : List Char) (e : Event) (h : stripTrailingNL l = []) :
    parse_event_line l e = (ParseResult.Dispatch, e) := by
  simp only [parse_event_line, h, if_pos]

lemma parse_of_strip (l x : List Char) (e : Event) (h : stripTrailingNL l = x)
    (hne : x ≠ []) : parse_event_line l e = handleField x e := by
  simp only [parse_event_line, h, if_neg hne]

/-- A wire line of the form `<field>: <value>\n` with a clean value strips to
its field-and-value part. -/
lemma strip_wire_line (a s : List Char) (ha : stripTrailingNL a = a)
    (h1 : '\n' ∉ s) (h2 : '\r' ∉ s) :
    stripTrailingNL (a ++ s ++ ['\n']) = a ++ s := by
  rw [stripTrailingNL_append_nl]
  exact stripTrailingNL_append_clean a s ha h1 h2

lemma parse_id_line (s : List Char) (e : Event) (h1 : '\n' ∉ s) (h2 : '\r' ∉ s) :
    parse_event_line ("id: ".toList ++ s ++ ['\n']) e
      = (ParseResult.Next, { e with id := some s }) := by
  rw [parse_of_strip _ ("id: ".toList ++ s) e
      (strip_wire_line _ s (by decide) h1 h2)
      (List.append_ne_nil_of_left_ne_nil (by decide) s)]
  rfl

lemma parse_event_type_line (s : List Char) (e : Event) (h1 : '\n' ∉ s)
    (h2 : '\r' ∉ s) :
    parse_event_line ("event: ".toList ++ s ++ ['\n']) e
      = (ParseResult.Next, { e with event_type := some s }) := by
  rw [parse_of_strip _ ("event: ".toList ++ s) e
      (strip_wire_line _ s (by decide) h1 h2)
      (List.append_ne_nil_of_left_ne_nil (by decide) s)]
  rfl

/-- The serialized form of one `data` line. -/
def dataLine (v : List Char) : List Char := "data: ".toList ++ v ++ ['\n']

lemma parse_data_line (s : List Char) (e : Event) (h1 : '\n' ∉ s) (h2 : '\r' ∉ s) :
    parse_event_line (dataLine s) e
      = (ParseResult.Next, { e with data := e.data ++ s ++ ['\n'] }) := by
  rw [dataLine, parse_of_strip _ ("data: ".toList ++ s) e
      (strip_wire_line _ s (by decide) h1 h2)
      (List.append_ne_nil_of_left_ne_nil (by decide) s)]
  rfl

lemma feedEventLines_nil (e : Event) : feedEventLines [] e = e := rfl

lemma feedEventLines_cons (l : List Char) (ls : List (List Char)) (e : Event) :
    feedEventLines (l :: ls) e = feedEventLines ls (parse_event_line l e).2 := rfl

lemma feedEventLines_append (xs ys : List (List Char)) (e : Event) :
    feedEventLines (xs ++ ys) e = feedEventLines ys (feedEventLines xs e) :=
  List.foldl_append _ _ _ _

/-- Feeding a sequence of `data` wire lines appends each value followed by a
newline, in arrival order. -/
lemma feed_data_lines (vs : List (List Char)) (e : Event)
    (h : ∀ v ∈ vs, '\n' ∉ v ∧ '\r' ∉ v) :
    feedEventLines (vs.map dataLine) e
      = { e with data := e.data ++ (vs.map (· ++ ['\n'])).flatten } := by
  induction vs generalizing e with
  | nil => simp [feedEventLines]
  | cons v vs ih =>
    obtain ⟨h1, h2⟩ := h v (by simp)
    rw [List.map_cons, feedEventLines_cons, parse_data_line v e h1 h2]
    rw [ih _ (fun u hu => h u (List.mem_cons_of_mem v hu))]
    simp [List.append_assoc]

/-- Whatever `parse_event_line` returns, if the result is not `Next` the
accumulator is returned unchanged. -/
lemma parse_snd_eq_of_not_next (l : List Char) (e : Event)
    (h : (parse_event_line l e).1 ≠ ParseResult.Next) :
    (parse_event_line l e).2 = e := by
  by_cases hb : stripTrailingNL l = []
  · rw [parse_blank l e hb]
  · rw [parse_of_strip l (stripTrailingNL l) e rfl hb] at h ⊢
    simp only [handleField] at h ⊢
    split_ifs at h ⊢ with h1 h2 h3 h4
    · exact absurd rfl h
    · exact absurd rfl h
    · exact absurd rfl h
    · cases hp : parseU64 (splitFieldValue (stripTrailingNL l)).2 with
      | some n => rfl
      | none => rw [hp] at h
    · exact absurd rfl h

/-! ## Claims C4, C5, C8, C9, C10 — the line parser -/

/-- Claim C8 (confirmed): for every input line that is empty after stripping
trailing CR/LF, `parse_event_line` returns `Dispatch`; stripping happens
before interpretation. -/
theorem claim_C8_blank_line_dispatches (l : List Char) (e : Event)
    (h : stripTrailingNL l = []) :
    (parse_event_line l e).1 = ParseResult.Dispatch := by
  rw [parse_blank l e h]

/-- Witness for C8 at the lines `"\n"` and `"\r\n"`. -/
theorem claim_C8_witness :
    (parse_event_line ['\n'] Event.new).1 = ParseResult.Dispatch ∧
    (parse_event_line ['\r', '\n'] Event.new).1 = ParseResult.Dispatch :=
  ⟨claim_C8_blank_line_dispatches ['\n'] Event.new (by decide),
   claim_C8_blank_line_dispatches ['\r', '\n'] Event.new (by decide)⟩

/-- Counterexample to claim C4 as stated: the colon-free line `"data"` is
*not* ignored — parsing it against a fresh accumulator changes the
accumulator (it appends an empty value plus a newline to `data`). -/
theorem claim_C4_counterexample :
    (parse_event_line "data".toList Event.new).2 ≠ Event.new := by decide

/-- Claim C4 (corrected): a non-empty line containing no colon is treated as
a field name with empty value; unless that field name is exactly `event`,
`data`, or `id`, the line is ignored: `parse_event_line` returns `Next`
(Continue) with the accumulator unchanged (a bare `retry` line is also
ignored, since its empty value does not parse as an integer). -/
theorem claim_C4_no_colon_ignored (l : List Char) (e : Event)
    (hne : stripTrailingNL l ≠ []) (hnc : ':' ∉ l)
    (h1 : stripTrailingNL l ≠ "event".toList)
    (h2 : stripTrailingNL l ≠ "data".toList)
    (h3 : stripTrailingNL l ≠ "id".toList) :
    parse_event_line l e = (ParseResult.Next, e) := by
  rw [parse_of_strip l (stripTrailingNL l) e rfl hne]
  have hnc' : ':' ∉ stripTrailingNL l := fun hm => hnc (mem_of_mem_stripTrailingNL hm)
  simp only [handleField, splitFieldValue_no_colon _ hnc']
  rw [if_neg h1, if_neg h2, if_neg h3]
  by_cases hr : stripTrailingNL l = "retry".toList
  · rw [if_pos hr]; rfl
  · rw [if_neg hr]

/-- Witness for the corrected C4 at the colon-free line `"flibber"`. -/
theorem claim_C4_witness :
    parse_event_line "flibber".toList Event.new = (ParseResult.Next, Event.new) :=
  claim_C4_no_colon_ignored "flibber".toList Event.new (by decide) (by decide)
    (by decide) (by decide) (by decide)

/-- Claim C5 (confirmed): for every line whose stripped form has field
`retry`, if the value parses as a non-negative integer (`u64`) the call
returns `SetRetry` of that many milliseconds with the accumulator untouched;
otherwise the line is ignored — `Next` is returned, the accumulator is
untouched, and no error is raised (there is no error outcome). -/
theorem claim_C5_retry_line (l v : List Char) (e : Event)
    (hne : stripTrailingNL l ≠ [])
    (hsplit : splitFieldValue (stripTrailingNL l) = ("retry".toList, v)) :
    parse_event_line l e =
      (match parseU64 v with
       | some n => (ParseResult.SetRetry n, e)
       | none => (ParseResult.Next, e)) := by
  rw [parse_of_strip l (stripTrailingNL l) e rfl hne]
  simp only [handleField, hsplit]
  rfl

/-- Witness for C5 at `"retry: 42"` (parses) and `"retry: abc"` (ignored). -/
theorem claim_C5_witness :
    parse_event_line "retry: 42".toList Event.new
      = (ParseResult.SetRetry 42, Event.new) ∧
    parse_event_line "retry: abc".toList Event.new
      = (ParseResult.Next, Event.new) := by
  constructor
  · have h := claim_C5_retry_line "retry: 42".toList "42".toList Event.new
      (by decide) (by decide)
    rw [h]; rfl
  · have h := claim_C5_retry_line "retry: abc".toList "abc".toList Event.new
      (by decide) (by decide)
    rw [h]; rfl

/-- Claim C9 (confirmed): feeding a sequence of `data` wire lines against one
accumulator appends each line's value followed by a newline to `data`, so the
values concatenate in arrival order. -/
theorem claim_C9_data_lines_concatenate (vs : List (List Char)) (e : Event)
    (h : ∀ v ∈ vs, '\n' ∉ v ∧ '\r' ∉ v) :
    feedEventLines (vs.map dataLine) e
      = { e with data := e.data ++ (vs.map (· ++ ['\n'])).flatten } :=
  feed_data_lines vs e h

/-- Witness for C9: `"data: hello"`, `"data: world"`, then a blank line
dispatch an accumulator whose data is `"hello\nworld\n"`. -/
theorem claim_C9_witness :
    feedEventLines (["hello".toList, "world".toList].map dataLine) Event.new
      = { id := none, event_type := none, data := "hello\nworld\n".toList } ∧
    parse_event_line []
        (feedEventLines (["hello".toList, "world".toList].map dataLine) Event.new)
      = (ParseResult.Dispatch,
         { id := none, event_type := none, data := "hello\nworld\n".toList }) := by
  have h := claim_C9_data_lines_concatenate ["hello".toList, "world".toList]
    Event.new (by
      intro v hv
      simp only [List.mem_cons, List.not_mem_nil, or_false] at hv
      rcases hv with rfl | rfl <;> exact (by decide))
  rw [h]
  exact ⟨rfl, rfl⟩

/-- Claim C10 (confirmed): whenever `parse_event_line` returns `Dispatch` or
`SetRetry`, the accumulator is left completely unchanged by that call; only
calls returning `Next` (Continue) may modify it. -/
theorem claim_C10_frame (l : List Char) (e : Event)
    (h : (parse_event_line l e).1 = ParseResult.Dispatch ∨
         ∃ n, (parse_event_line l e).1 = ParseResult.SetRetry n) :
    (parse_event_line l e).2 = e := by
  apply parse_snd_eq_of_not_next
  rcases h with h | ⟨n, h⟩ <;> rw [h] <;> intro hc <;> cases hc

/-- Witness for C10 at the blank line (a `Dispatch`). -/
theorem claim_C10_witness : (parse_event_line [] Event.new).2 = Event.new :=
  claim_C10_frame [] Event.new (Or.inl (by decide))

/-! ## Serialization round trip: helper lemmas for claim C2 -/

lemma not_mem_append_of {c : Char} {a b : List Char} (ha : c ∉ a) (hb : c ∉ b) :
    c ∉ a ++ b := by
  intro hm
  rcases List.mem_append.mp hm with h1 | h2
  exacts [ha h1, hb h2]

lemma stripCR_of_no_cr {l : List Char} (h : '\r' ∉ l) : stripCR l = l := by
  unfold stripCR
  rw [if_neg fun hg => h (List.mem_of_getLast?_eq_some hg)]

lemma splitNL_prepend_line (l t : List Char) (h : '\n' ∉ l) :
    splitNL (l ++ '\n' :: t) = l :: splitNL t := by
  induction l with
  | nil => simp [splitNL]
  | cons c l ih =>
    have hc : c ≠ '\n' := fun e => h (e ▸ List.mem_cons_self c l)
    have h' : '\n' ∉ l := fun hm => h (List.mem_cons_of_mem c hm)
    simp [splitNL, hc, ih h']

/-- `str::lines()` recovers the line list from a string assembled out of
LF-terminated, LF/CR-free lines. -/
lemma rustLines_of_flatten (ls : List (List Char))
    (h : ∀ l ∈ ls, '\n' ∉ l ∧ '\r' ∉ l) :
    rustLines ((ls.map (· ++ ['\n'])).flatten) = ls := by
  have hsplit : splitNL ((ls.map (· ++ ['\n'])).flatten) = ls ++ [[]] := by
    induction ls with
    | nil => rfl
    | cons l ls ih =>
      simp only [List.map_cons, List.flatten_cons, List.append_assoc,
        List.singleton_append]
      rw [splitNL_prepend_line l _ (h l (List.mem_cons_self l ls)).1,
        ih (fun u hu => h u (List.mem_cons_of_mem l hu))]
      rfl
  unfold rustLines
  rw [hsplit]
  simp only [List.dropLast_concat, List.getLast?_concat, if_pos]
  calc ls.map stripCR = ls.map (fun l => l) :=
        List.map_congr_left (fun u hu => stripCR_of_no_cr (h u hu).2)
    _ = ls := List.map_id' ls

lemma splitInclusiveNL_line (x b : List Char) (h : '\n' ∉ x) :
    splitInclusiveNL (x ++ '\n' :: b) = (x ++ ['\n']) :: splitInclusiveNL b := by
  induction x with
  | nil => simp [splitInclusiveNL]
  | cons c x ih =>
    have hc : c ≠ '\n' := fun e => h (e ▸ List.mem_cons_self c x)
    have h' : '\n' ∉ x := fun hm => h (List.mem_cons_of_mem c hm)
    simp [splitInclusiveNL, hc, ih h']

lemma append_nl_cons (x rest : List Char) :
    (x ++ ['\n']) ++ rest = x ++ '\n' :: rest := by
  rw [List.append_assoc]
  rfl

/-- Splitting the serialized data block into wire lines gives one `data: `
line per data line. -/
lemma splitInclusiveNL_data_block (ls : List (List Char))
    (h : ∀ l ∈ ls, '\n' ∉ l) :
    splitInclusiveNL ((ls.map (fun l => "data: ".toList ++ l ++ ['\n'])).flatten)
      = ls.map dataLine := by
  induction ls with
  | nil => rfl
  | cons l ls ih =>
    have hassoc : ∀ x rest : List Char, (x ++ ['\n']) ++ rest = x ++ '\n' :: rest := by
      intro x rest
      rw [List.append_assoc]
      rfl
    rw [List.map_cons, List.flatten_cons, hassoc,
      splitInclusiveNL_line ("data: ".toList ++ l) _
        (not_mem_append_of (by decide) (h l (List.mem_cons_self l ls))),
      ih (fun u hu => h u (List.mem_cons_of_mem l hu))]
    rfl

/-! ## Claims C1, C3, C6, C7 — the reconnecting client -/

/-- Inside one read loop, `last_event_id` changes only at the dispatch that
ends the loop: on a yield it equals the dispatched event's id when that id is
present, and the incoming value otherwise. -/
lemma runLoop_yield_last_event_id (c : Client) (acc : Event) (rs : List ReadResult)
    (c3 : Client) (rest : List ReadResult) (ev : Event)
    (h : runLoop c acc rs = (c3, rest, LoopExit.yield ev)) :
    c3.last_event_id = (match ev.id with
                        | some s => some s
                        | none => c.last_event_id) := by
  induction rs generalizing c acc with
  | nil => simp [runLoop] at h
  | cons r rest' ih =>
    cases r with
    | eof => simp [runLoop] at h
    | ioError => simp [runLoop] at h
    | line s =>
      rw [runLoop] at h
      rcases hp : parse_event_line s acc with ⟨pr, acc2⟩
      rw [hp] at h
      cases pr with
      | Next => exact ih c acc2 h
      | SetRetry d =>
        rw [ih { c with retry := d } acc2 h]
      | Dispatch =>
        have h' : ((match acc2.id with
                    | some id => { c with last_event_id := some id }
                    | none => c : Client), rest', LoopExit.yield acc2)
                    = (c3, rest, LoopExit.yield ev) := h
        cases hid : acc2.id with
        | some i =>
          rw [hid] at h'
          simp only [Prod.mk.injEq, LoopExit.yield.injEq] at h'
          obtain ⟨hc3, -, hev⟩ := h'
          rw [← hc3, ← hev, hid]
        | none =>
          rw [hid] at h'
          simp only [Prod.mk.injEq, LoopExit.yield.injEq] at h'
          obtain ⟨hc3, -, hev⟩ := h'
          rw [← hc3, ← hev, hid]

/-- A connected client whose next read fails with an I/O error. -/
def errClient : Client :=
  { response := some [ReadResult.ioError], last_event_id := none,
    retry := DEFAULT_RETRY }

/-- A transport environment offering one good reconnection whose body
dispatches a single event with data `"x\n"`. -/
def reconnectEnv : List RequestOutcome :=
  [RequestOutcome.response
    { statusSuccess := true, statusCode := 200,
      contentType := some { type_ := "text".toList,
                            subtype := "event-stream".toList, params := [] },
      body := [ReadResult.line "data: x\n".toList,
               ReadResult.line "\n".toList] }]

/-- Counterexample to claim C1 as stated: when the open body fails with a
read error, the pull does not surface the error — here it yields the next
connection's event, and in particular its result is not the `Io` error. -/
theorem claim_C1_counterexample :
    (clientNext errClient reconnectEnv).1
      = PullOutcome.item (Except.ok
          { id := none, event_type := none, data := "x\n".toList }) ∧
    (clientNext errClient reconnectEnv).1
      ≠ PullOutcome.item (Except.error Error.Io) := by decide

/-- Claim C1 (corrected): on a read error the client drops the connection
(back to Idle) and transparently re-enters the Idle-to-Connected logic within
the same pull — exactly like clean EOF — instead of surfacing the error. -/
theorem claim_C1_read_error_reconnects (c : Client) (env : List RequestOutcome)
    (rs : List ReadResult) (hconn : c.response = some rs)
    (herr : (runLoop c Event.new rs).2.2 = LoopExit.readErr) :
    clientNext c env
      = nextFromIdle { (runLoop c Event.new rs).1 with response := none } env := by
  rcases hr : runLoop c Event.new rs with ⟨c3, rest, ex⟩
  have hex : ex = LoopExit.readErr := by rw [hr] at herr; exact herr
  subst hex
  simp [clientNext, hconn, hr]

/-- Witness for the corrected C1 at a concrete erroring body. -/
theorem claim_C1_witness :
    clientNext errClient reconnectEnv
      = nextFromIdle
          { (runLoop errClient Event.new [ReadResult.ioError]).1
              with response := none } reconnectEnv :=
  claim_C1_read_error_reconnects errClient reconnectEnv [ReadResult.ioError]
    rfl rfl

/-- A connected client whose body dispatches an event carrying an empty id. -/
def emptyIdClient : Client :=
  { response := some [ReadResult.line "id:\n".toList,
                      ReadResult.line "\n".toList],
    last_event_id := none, retry := DEFAULT_RETRY }

/-- Counterexample to claim C3 as stated: dispatching an event whose id is
the empty string does change `last_event_id` (to the empty string). -/
theorem claim_C3_counterexample :
    (clientNext emptyIdClient []).2.last_event_id
      ≠ emptyIdClient.last_event_id := by decide

/-- Claim C3 (corrected): a pull that dispatches an event sets
`last_event_id` to the event's id whenever the id is present — including when
it is the empty string — and leaves it unchanged when the id is absent. -/
theorem claim_C3_last_event_id_update (c : Client) (env : List RequestOutcome)
    (rs : List ReadResult) (c3 : Client) (rest : List ReadResult) (ev : Event)
    (hconn : c.response = some rs)
    (hrun : runLoop c Event.new rs = (c3, rest, LoopExit.yield ev)) :
    clientNext c env
      = (PullOutcome.item (Except.ok ev), { c3 with response := some rest }) ∧
    c3.last_event_id = (match ev.id with
                        | some s => some s
                        | none => c.last_event_id) := by
  refine ⟨?_, runLoop_yield_last_event_id c Event.new rs c3 rest ev hrun⟩
  simp [clientNext, hconn, hrun]

/-- Witness for the corrected C3: the empty-string id is copied into
`last_event_id`. -/
theorem claim_C3_witness :
    clientNext emptyIdClient []
      = (PullOutcome.item (Except.ok
           { id := some [], event_type := none, data := [] }),
         { response := some [], last_event_id := some [],
           retry := DEFAULT_RETRY }) :=
  (claim_C3_last_event_id_update emptyIdClient []
    [ReadResult.line "id:\n".toList, ReadResult.line "\n".toList]
    { response := some [ReadResult.line "id:\n".toList,
                        ReadResult.line "\n".toList],
      last_event_id := some [], retry := DEFAULT_RETRY }
    [] { id := some [], event_type := none, data := [] }
    rfl (by decide)).1

/-- Claim C6 (confirmed): on a connection attempt with a successful status,
an absent `Content-Type` surfaces `NoContentType` (the spec's
MissingContentType) and a present one whose type/subtype pair is not
`text/event-stream` (parameters ignored) surfaces `InvalidContentType` with
the actual type; in both cases the client is returned unchanged — still Idle
with the same `last_event_id`. -/
theorem claim_C6_content_type_checks (c : Client) (env : List RequestOutcome)
    (r : Response) (hidle : c.response = none) (hok : r.statusSuccess = true) :
    (r.contentType = none →
      clientNext c (RequestOutcome.response r :: env)
        = (PullOutcome.item (Except.error Error.NoContentType), c)) ∧
    (∀ m, r.contentType = some m →
      (m.type_, m.subtype) ≠ ("text".toList, "event-stream".toList) →
      clientNext c (RequestOutcome.response r :: env)
        = (PullOutcome.item (Except.error (Error.InvalidContentType m)), c)) := by
  constructor
  · intro hct
    simp [clientNext, hidle, nextFromIdle, next_request, hok, hct]
  · intro m hct hne
    have hne' : m.type_ = "text".toList → ¬ m.subtype = "event-stream".toList := by
      intro ht hs
      exact hne (by rw [ht, hs])
    simp only [clientNext, hidle, nextFromIdle, next_request, hok, hct,
      Bool.not_true, Bool.false_eq_true, if_false, ne_eq, Prod.mk.injEq, not_and]
    rw [if_pos hne']

/-- Witness for C6: a missing header and a `text/html` header. -/
theorem claim_C6_witness :
    clientNext Client.new
        [RequestOutcome.response
          { statusSuccess := true, statusCode := 200, contentType := none,
            body := [] }]
      = (PullOutcome.item (Except.error Error.NoContentType), Client.new) ∧
    clientNext Client.new
        [RequestOutcome.response
          { statusSuccess := true, statusCode := 200,
            contentType := some { type_ := "text".toList,
                                  subtype := "html".toList, params := [] },
            body := [] }]
      = (PullOutcome.item (Except.error (Error.InvalidContentType
           { type_ := "text".toList, subtype := "html".toList, params := [] })),
         Client.new) :=
  ⟨(claim_C6_content_type_checks Client.new [] _ rfl rfl).1 rfl,
   (claim_C6_content_type_checks Client.new [] _ rfl rfl).2 _ rfl (by decide)⟩

/-- Claim C7 (confirmed): on a clean end of stream the pull yields no error;
the client drops the connection (Idle) and re-enters the Idle-to-Connected
logic within the same pull, so the caller sees one continuous sequence. -/
theorem claim_C7_clean_eof_reconnects (c : Client) (env : List RequestOutcome)
    (rs : List ReadResult) (hconn : c.response = some rs)
    (heof : (runLoop c Event.new rs).2.2 = LoopExit.eofExit) :
    clientNext c env
      = nextFromIdle { (runLoop c Event.new rs).1 with response := none } env := by
  rcases hr : runLoop c Event.new rs with ⟨c3, rest, ex⟩
  have hex : ex = LoopExit.eofExit := by rw [hr] at heof; exact heof
  subst hex
  simp [clientNext, hconn, hr]

/-- A connected client at a clean end of stream. -/
def eofClient : Client :=
  { response := some [ReadResult.eof], last_event_id := none,
    retry := DEFAULT_RETRY }

/-- Witness for C7 at a concrete exhausted body. -/
theorem claim_C7_witness :
    clientNext eofClient reconnectEnv
      = nextFromIdle
          { (runLoop eofClient Event.new [ReadResult.eof]).1
              with response := none } reconnectEnv :=
  claim_C7_clean_eof_reconnects eofClient reconnectEnv [ReadResult.eof] rfl rfl

/-! ## Claim C2 — the serialization round trip -/

/-- Counterexample to claim C2 as stated: the event with data `"a"` (no
trailing newline) does not survive the round trip — re-parsing its serialized
form yields data `"a\n"`. -/
theorem claim_C2_counterexample :
    (parse_event_line []
        (feedEventLines
          (splitInclusiveNL (displayEvent
            { id := none, event_type := none, data := ['a'] }))
          Event.new)).2
      ≠ { id := none, event_type := none, data := ['a'] } := by decide

/-- Claim C2 (corrected): for every Event whose id and event type, when
present, contain no LF or CR, and whose data is a concatenation of
LF-terminated lines each free of LF and CR (in particular, empty data or data
ending in a newline), serializing via `Display` and feeding the wire lines
plus a terminating blank line back through `parse_event_line` dispatches an
Event equal to the original in id, event type, and data. -/
theorem claim_C2_roundtrip (E : Event) (ls : List (List Char))
    (hid : ∀ s, E.id = some s → '\n' ∉ s ∧ '\r' ∉ s)
    (hev : ∀ s, E.event_type = some s → '\n' ∉ s ∧ '\r' ∉ s)
    (hdata : E.data = (ls.map (· ++ ['\n'])).flatten)
    (hls : ∀ l ∈ ls, '\n' ∉ l ∧ '\r' ∉ l) :
    parse_event_line []
        (feedEventLines (splitInclusiveNL (displayEvent E)) Event.new)
      = (ParseResult.Dispatch, E) := by
  obtain ⟨oid, oev, d⟩ := E
  have hdata' : d = (ls.map (· ++ ['\n'])).flatten := hdata
  have hdb : rustLines d = ls := by
    rw [hdata']
    exact rustLines_of_flatten ls hls
  have hlsn : ∀ l ∈ ls, '\n' ∉ l := fun u hu => (hls u hu).1
  cases oid with
  | some s =>
    obtain ⟨hs1, hs2⟩ := hid s rfl
    cases oev with
    | some t =>
      obtain ⟨ht1, ht2⟩ := hev t rfl
      show parse_event_line []
        (feedEventLines (splitInclusiveNL
          ((("id: ".toList ++ s ++ ['\n']) ++ ("event: ".toList ++ t ++ ['\n'])) ++
            ((rustLines d).map (fun l => "data: ".toList ++ l ++ ['\n'])).flatten))
          Event.new) = _
      rw [List.append_assoc, append_nl_cons,
        splitInclusiveNL_line _ _ (not_mem_append_of (by decide) hs1),
        append_nl_cons,
        splitInclusiveNL_line _ _ (not_mem_append_of (by decide) ht1),
        hdb, splitInclusiveNL_data_block ls hlsn,
        feedEventLines_cons, parse_id_line s Event.new hs1 hs2,
        feedEventLines_cons, parse_event_type_line t _ ht1 ht2,
        feed_data_lines ls _ hls,
        parse_blank [] _ stripTrailingNL_nil, hdata']
      rfl
    | none =>
      show parse_event_line []
        (feedEventLines (splitInclusiveNL
          ((("id: ".toList ++ s ++ ['\n']) ++ []) ++
            ((rustLines d).map (fun l => "data: ".toList ++ l ++ ['\n'])).flatten))
          Event.new) = _
      rw [List.append_nil, append_nl_cons,
        splitInclusiveNL_line _ _ (not_mem_append_of (by decide) hs1),
        hdb, splitInclusiveNL_data_block ls hlsn,
        feedEventLines_cons, parse_id_line s Event.new hs1 hs2,
        feed_data_lines ls _ hls,
        parse_blank [] _ stripTrailingNL_nil, hdata']
      rfl
  | none =>
    cases oev with
    | some t =>
      obtain ⟨ht1, ht2⟩ := hev t rfl
      show parse_event_line []
        (feedEventLines (splitInclusiveNL
          (([] ++ ("event: ".toList ++ t ++ ['\n'])) ++
            ((rustLines d).map (fun l => "data: ".toList ++ l ++ ['\n'])).flatten))
          Event.new) = _
      rw [List.nil_append, append_nl_cons,
        splitInclusiveNL_line _ _ (not_mem_append_of (by decide) ht1),
        hdb, splitInclusiveNL_data_block ls hlsn,
        feedEventLines_cons, parse_event_type_line t _ ht1 ht2,
        feed_data_lines ls _ hls,
        parse_blank [] _ stripTrailingNL_nil, hdata']
      rfl
    | none =>
      show parse_event_line []
        (feedEventLines (splitInclusiveNL
          (([] ++ ([] : List Char)) ++
            ((rustLines d).map (fun l => "data: ".toList ++ l ++ ['\n'])).flatten))
          Event.new) = _
      rw [List.nil_append, List.nil_append,
        hdb, splitInclusiveNL_data_block ls hlsn,
        feed_data_lines ls _ hls,
        parse_blank [] _ stripTrailingNL_nil, hdata']
      rfl

/-- Witness for the corrected C2 at the event
`{id: "42", event: "foo", data: "bar\n"}`. -/
theorem claim_C2_witness :
    parse_event_line []
        (feedEventLines (splitInclusiveNL (displayEvent
          { id := some "42".toList, event_type := some "foo".toList,
            data := "bar\n".toList }))
          Event.new)
      = (ParseResult.Dispatch,
         { id := some "42".toList, event_type := some "foo".toList,
           data := "bar\n".toList }) := by
  have h := claim_C2_roundtrip
    { id := some "42".toList, event_type := some "foo".toList,
      data := "bar\n".toList }
    ["bar".toList]
    (by intro s hs; injection hs with hs; subst hs; exact (by decide))
    (by intro s hs; injection hs with hs; subst hs; exact (by decide))
    (by decide)
    (by intro l hl
        simp only [List.mem_cons, List.not_mem_nil, or_false] at hl
        subst hl
        exact (by decide))
  exact h

end EventSource
